import Mathlib

/-!
Verification of the fortune-corpus engine in `src/fortuner/src/lib.rs`:
path collection (`find_files`), record parsing (`read_fortunes`), pattern
mode and seeded random selection (`pick_fortune`, `run`).  The filesystem,
the process output streams and the pseudorandom generators are modelled
explicitly, so every function below is a pure, executable translation of
the corresponding Rust function.
-/

namespace Fortuner

/-- Model of one normalized component of a Rust `Path` (the sequence produced
by `Path::components()`).  `utf8` records whether `OsStr::to_str` succeeds on
the component; `name` stands for its byte content (exact when `utf8 = true`,
a lossy stand-in otherwise, as produced by `to_string_lossy`). -/
inductive Component where
  | root : Component
  | cur : Component
  | parent : Component
  | normal (name : String) (utf8 : Bool) : Component
deriving DecidableEq

/-- Rust compares path components by variant first (`RootDir < CurDir <
ParentDir < Normal`) and `Normal` components by their bytes; `key` encodes
exactly that ordering (the `Bool` tiebreak is immaterial in reality, where
the bytes determine both fields; it only makes the model order total). -/
def Component.key : Component → Lex (Nat × Lex (List Char × Bool))
  | .root => toLex (0, toLex ([], false))
  | .cur => toLex (1, toLex ([], false))
  | .parent => toLex (2, toLex ([], false))
  | .normal n u => toLex (3, toLex (n.data, u))

theorem Component.key_injective : Function.Injective Component.key := by
  intro a b h
  cases a <;> cases b <;> simp [Component.key, toLex_inj, Prod.mk.injEq] at h ⊢
  exact ⟨String.ext h.1, h.2⟩

instance : LinearOrder Component := LinearOrder.lift' Component.key Component.key_injective

/-- A resolved path (`PathBuf`), as its normalized component sequence.  The
`LinearOrder` inherited from `List` is lexicographic on components, which is
exactly Rust's `Ord` for `PathBuf` (`components().cmp(...)`). -/
abbrev RPath := List Component

/-- Rendering of a component for messages (`Display` / `to_string_lossy`). -/
def Component.render : Component → String
  | .root => ""
  | .cur => "."
  | .parent => ".."
  | .normal n _ => n

/-- The textual form of a path, used in error messages and in the spec's
phrase "lexicographically by path string". -/
def pathString (p : RPath) : String :=
  String.intercalate "/" (p.map Component.render)

/-- String comparison on rendered paths (byte/char lexicographic), used only
to state what "sorted lexicographically by path string" would mean. -/
def pathStringLt (a b : RPath) : Prop :=
  (pathString a).data < (pathString b).data

instance : DecidableRel pathStringLt := fun a b =>
  inferInstanceAs (Decidable ((pathString a).data < (pathString b).data))

/-- What `std::fs::Metadata` tells `find_files`: a regular file, a directory,
or something else (`is_file` and `is_dir` both false). -/
inductive FKind where
  | file : FKind
  | dir : FKind
  | other : FKind
deriving DecidableEq

/-- One entry yielded as `Ok` by the `WalkDir` iterator: its path together
with the result of its own `entry.metadata()` call (which is a fresh stat and
can fail even for a yielded entry). -/
instance {ε α : Type} [DecidableEq ε] [DecidableEq α] : DecidableEq (Except ε α) := fun x y =>
  match x, y with
  | .ok a, .ok b =>
    if h : a = b then isTrue (by rw [h]) else isFalse (fun hc => h (Except.ok.inj hc))
  | .error a, .error b =>
    if h : a = b then isTrue (by rw [h]) else isFalse (fun hc => h (Except.error.inj hc))
  | .ok _, .error _ => isFalse (fun hc => Except.noConfusion hc)
  | .error _, .ok _ => isFalse (fun hc => Except.noConfusion hc)

structure WalkEntry where
  path : RPath
  meta : Except String FKind
deriving DecidableEq

/-- The ambient filesystem: top-level `fs::metadata`, the list of entries the
`WalkDir` iterator yields as `Ok` for a directory (entries whose iteration
errored are already absent, matching `filter_map(|e| e.ok())`), and the
result of `fs::File::open` — a file's content as the list of outcomes of
`BufRead::lines` (an `error` line models a read/decode failure). -/
structure FileSystem where
  meta : RPath → Except String FKind
  walk : RPath → List WalkEntry
  openFile : RPath → Except String (List (Except String String))

/-- Outcome of `find_files`: the collected paths, an early `Err` return, or a
panic (from `entry.metadata().unwrap()` on a failed metadata call). -/
inductive FindResult where
  | ok (files : List RPath) : FindResult
  | err (msg : String) : FindResult
  | panicked : FindResult
deriving DecidableEq

/-- The body of the `WalkDir` loop in `find_files`: for each yielded entry,
`entry.metadata().unwrap().is_file()` decides whether its path is pushed;
a failed metadata call makes the `unwrap` panic (`none`). -/
def collectEntries : List WalkEntry → Option (List RPath)
  | [] => some []
  | e :: rest =>
    match e.meta with
    | .error _ => none
    | .ok k =>
      match collectEntries rest with
      | none => none
      | some l => some (if k = FKind.file then e.path :: l else l)

/-- The accumulation loop of `find_files` over the top-level paths, in input
order: a failed `metadata` aborts with `Err("{path}: {e}")`; a file is pushed
as-is; a directory contributes its walk's file entries; anything else is
silently ignored. -/
def find_filesAcc (fs : FileSystem) : List RPath → FindResult
  | [] => .ok []
  | p :: ps =>
    match fs.meta p with
    | .error e => .err (pathString p ++ ": " ++ e)
    | .ok k =>
      if k = FKind.file then
        match find_filesAcc fs ps with
        | .ok l => .ok (p :: l)
        | r => r
      else if k = FKind.dir then
        match collectEntries (fs.walk p) with
        | none => .panicked
        | some es =>
          match find_filesAcc fs ps with
          | .ok l => .ok (es ++ l)
          | r => r
      else find_filesAcc fs ps

/-- `find_files`: accumulate, then `result.sort()` and `result.dedup()`.
Rust's `sort` is a stable sort under `PathBuf`'s total order; since equal
paths are identical values, its output is the unique `≤`-sorted permutation,
which `List.insertionSort` also produces.  `Vec::dedup` removes consecutive
duplicates, which is `List.destutter (· ≠ ·)`. -/
def find_files (fs : FileSystem) (paths : List RPath) : FindResult :=
  match find_filesAcc fs paths with
  | .ok l => .ok (List.destutter (· ≠ ·) (l.insertionSort (· ≤ ·)))
  | r => r

/-- A parsed record (`Fortune { source, text }`). -/
structure Fortune where
  source : String
  text : String
deriving DecidableEq

/-- One chronological output action: `out` is a `println!` to stdout, the
primary stream; `errLine` is an `eprintln!` to stderr, the diagnostic
stream. -/
inductive OutEvent where
  | out (s : String) : OutEvent
  | errLine (s : String) : OutEvent
deriving DecidableEq

/-- The lines actually seen by the parser loop: `reader.lines()` results with
failed reads dropped (`filter_map(|e| e.ok())`). -/
def exceptOk? : Except String String → Option String
  | .ok s => some s
  | .error _ => none

/-- The `source` of an emitted record:
`path.file_name().unwrap().to_str().unwrap()`.  `file_name()` is the last
component if it is `Normal` (else `None`), and `to_str()` succeeds exactly on
valid UTF-8; `none` here therefore means one of the two `unwrap`s panics. -/
def recordSource? (p : RPath) : Option String :=
  match p.getLast? with
  | some (.normal n u) => if u then some n else none
  | _ => none

/-- The line loop of `read_fortunes` for one opened file, starting from the
buffer state `buf` it inherited (the buffer is declared outside the file loop
in the source, so it is NOT reset per file).  A line equal to `"%"` with a
non-empty buffer emits `Fortune { source, text: buf.join("\n") }` and clears
the buffer; every other line — including a `"%"` seen while the buffer is
empty — is pushed onto the buffer.  Emission evaluates the source name
unwraps; `src? = none` makes that emission panic (`none`). -/
def processFile (src? : Option String) : List String → List String → Option (List Fortune × List String)
  | buf, [] => some ([], buf)
  | buf, line :: rest =>
    if line = "%" ∧ buf ≠ [] then
      match src? with
      | none => none
      | some src =>
        match processFile src? [] rest with
        | none => none
        | some p => some ({ source := src, text := String.intercalate "\n" buf } :: p.1, p.2)
    else
      processFile src? (buf ++ [line]) rest

/-- `read_fortunes` over the resolved paths, threading the shared buffer: a
file that fails to open produces a stderr diagnostic `"{path}: {e}"` and is
skipped (buffer kept); an opened file runs the line loop; whatever is left in
the buffer after the last path is dropped.  `none` models a panic of the
source-name unwraps. -/
def read_fortunes (fs : FileSystem) : List RPath → List String → Option (List OutEvent × List Fortune)
  | [], _buf => some ([], [])
  | p :: ps, buf =>
    match fs.openFile p with
    | .error e =>
      match read_fortunes fs ps buf with
      | none => none
      | some r => some (.errLine (pathString p ++ ": " ++ e) :: r.1, r.2)
    | .ok rawLines =>
      match processFile (recordSource? p) buf (rawLines.filterMap exceptOk?) with
      | none => none
      | some q =>
        match read_fortunes fs ps q.2 with
        | none => none
        | some r => some (r.1, q.1 ++ r.2)

/-- Whether the line loop started in buffer state `buf` would emit at least
one record from the given lines, i.e. reaches a `"%"` line with a non-empty
buffer (this is the condition under which the source-name unwraps run). -/
def wouldEmit : List String → List String → Bool
  | _buf, [] => false
  | buf, line :: rest =>
    if line = "%" ∧ buf ≠ [] then true else wouldEmit (buf ++ [line]) rest

/-- `SliceRandom::choose`: `None` on an empty slice, else the element at
index `rng.gen_range(0..len)`; the generator's draw is abstracted as a
function from the range bound to the drawn index. -/
def choose (idx : Nat → Nat) (l : List Fortune) : Option Fortune :=
  if l.isEmpty then none else l.get? (idx l.length)

/-- `pick_fortune`: with a seed, the generator is `StdRng::seed_from_u64(seed)`
— a pure function of the 64-bit seed, abstracted as `stdRngIndex seed`; with
no seed it is `rand::thread_rng()`, whose ambient entropy state is abstracted
as `threadRngIndex`. -/
def pick_fortune (stdRngIndex : Nat → Nat → Nat) (threadRngIndex : Nat → Nat)
    (fortunes : List Fortune) (seed : Option Nat) : Option String :=
  match seed with
  | some val => (choose (stdRngIndex (val % 2 ^ 64)) fortunes).map Fortune.text
  | none => (choose threadRngIndex fortunes).map Fortune.text

/-- The pattern-mode loop of `run`: for each fortune whose text matches, if
`prev_source.map_or(true, |s| s != source)` a header `"({source})\n%"` goes to
stderr and `prev_source` is updated, then `"{text}\n%"` goes to stdout.  The
compiled regex is abstracted as its `is_match` predicate. -/
def patternLoop (isMatch : String → Bool) : Option String → List Fortune → List OutEvent
  | _, [] => []
  | prev, f :: rest =>
    if isMatch f.text then
      if prev ≠ some f.source then
        .errLine ("(" ++ f.source ++ ")\n%") :: .out (f.text ++ "\n%")
          :: patternLoop isMatch (some f.source) rest
      else
        .out (f.text ++ "\n%") :: patternLoop isMatch prev rest
    else patternLoop isMatch prev rest

/-- Pattern-mode output, started with `prev_source = None`. -/
def patternOut (isMatch : String → Bool) (fortunes : List Fortune) : List OutEvent :=
  patternLoop isMatch none fortunes

/-- The configuration `run` receives from the CLI layer: source paths, the
optional compiled pattern (as its match predicate), the optional u64 seed. -/
structure Config where
  sources : List RPath
  pattern : Option (String → Bool)
  seed : Option Nat

/-- Outcome of `run`: the chronological output events on success, an `Err`
propagated from `find_files`, or a panic. -/
inductive RunResult where
  | ok (events : List OutEvent) : RunResult
  | err (msg : String) : RunResult
  | panicked : RunResult
deriving DecidableEq

/-- `run`: collect files, parse the corpus, then either pattern mode or
random mode (`pick_fortune(..).unwrap_or("No fortunes found")` printed to
stdout). -/
def run (fs : FileSystem) (stdRngIndex : Nat → Nat → Nat) (threadRngIndex : Nat → Nat)
    (config : Config) : RunResult :=
  match find_files fs config.sources with
  | .err e => .err e
  | .panicked => .panicked
  | .ok files =>
    match read_fortunes fs files [] with
    | none => .panicked
    | some (events, fortunes) =>
      match config.pattern with
      | some isMatch => .ok (events ++ patternOut isMatch fortunes)
      | none =>
        .ok (events ++ [.out ((pick_fortune stdRngIndex threadRngIndex fortunes config.seed).getD
          "No fortunes found")])

/-- Projection of the primary output stream out of the event trace. -/
def stdoutOf (events : List OutEvent) : List String :=
  events.filterMap fun e =>
    match e with
    | .out s => some s
    | .errLine _ => none

/-- Reference rendition of the spec's pattern-mode contract, written from the
spec's words rather than from the code: every yielded record gets its text
printed, and a `(source)` header is emitted exactly when its source differs
from the source of the immediately preceding yielded record (with a header
for the first one).  It is compared against `patternLoop` below. -/
def adjacencyRender : Option String → List Fortune → List OutEvent
  | _, [] => []
  | prev, f :: rest =>
    (if prev ≠ some f.source then [.errLine ("(" ++ f.source ++ ")\n%")] else [])
      ++ .out (f.text ++ "\n%") :: adjacencyRender (some f.source) rest

/-! Concrete filesystems used as counterexample and witness inputs. -/

/-- A filesystem holding exactly the given regular files (with fully readable
line contents), no directories. -/
def fsOfFiles (files : List (RPath × List String)) : FileSystem where
  meta p := if (files.map Prod.fst).contains p then .ok .file
            else .error "No such file or directory (os error 2)"
  walk _ := []
  openFile p :=
    match files.find? (fun q => q.1 = p) with
    | some q => .ok (q.2.map Except.ok)
    | none => .error "No such file or directory (os error 2)"

/-- C2 input: a file whose first delimiter run has an empty buffer. -/
def pC2 : RPath := [Component.normal "f" true]

def fsC2 : FileSystem := fsOfFiles [(pC2, ["a", "%", "%", "b", "%"])]

/-- C3 input: file `A` is never terminated by a delimiter, file `B` is. -/
def pA3 : RPath := [Component.normal "A" true]

def pB3 : RPath := [Component.normal "B" true]

def fsC3 : FileSystem := fsOfFiles [(pA3, ["x"]), (pB3, ["y", "%"])]

/-- C4 input: two regular files whose `PathBuf` order and path-string order
disagree (`["a","b"] < ["a-b"]` component-wise, but `"a-b" < "a/b"` as
strings, since the byte of `-` precedes the byte of `/`). -/
def pDash : RPath := [Component.normal "a-b" true]

def pSlash : RPath := [Component.normal "a" true, Component.normal "b" true]

def fsC4 : FileSystem := fsOfFiles [(pDash, []), (pSlash, [])]

/-- C4 witness input: a directory with one file entry (plus the directory's
own walk entry) and a regular file, passed with a duplicate. -/
def pW4d : RPath := [Component.normal "d" true]

def pW4a : RPath := [Component.normal "d" true, Component.normal "a" true]

def pW4b : RPath := [Component.normal "b" true]

def fsW4 : FileSystem where
  meta p := if p = pW4d then .ok .dir
            else if p = pW4a ∨ p = pW4b then .ok .file
            else .error "No such file or directory (os error 2)"
  walk p := if p = pW4d then [⟨pW4d, .ok .dir⟩, ⟨pW4a, .ok .file⟩] else []
  openFile _ := .error "No such file or directory (os error 2)"

/-- C5 counterexample input: the first top-level path is a directory holding
an entry whose own metadata call fails; the second does not exist. -/
def pD5 : RPath := [Component.normal "locked" true]

def pE5 : RPath := [Component.normal "locked" true, Component.normal "x" true]

def pB5 : RPath := [Component.normal "missing" true]

def fsC5 : FileSystem where
  meta p := if p = pD5 then .ok .dir else .error "No such file or directory (os error 2)"
  walk p := if p = pD5 then [⟨pE5, .error "Permission denied (os error 13)"⟩] else []
  openFile _ := .error "No such file or directory (os error 2)"

/-- C5 witness input: a good file before and after the nonexistent path. -/
def pW5a : RPath := [Component.normal "good" true]

def pW5b : RPath := [Component.normal "bad" true]

def pW5c : RPath := [Component.normal "later" true]

def fsW5 : FileSystem := fsOfFiles [(pW5a, []), (pW5c, [])]

/-- C6 witness input: one discoverable file that fails to open, so the corpus
is empty but a diagnostic is emitted. -/
def pW6 : RPath := [Component.normal "f" true]

def fsW6 : FileSystem where
  meta p := if p = pW6 then .ok .file else .error "No such file or directory (os error 2)"
  walk _ := []
  openFile _ := .error "Permission denied (os error 13)"

/-- C7 witness input: three records from one source, the middle one not
matching. -/
def pW7 : RPath := [Component.normal "f" true]

def fsW7 : FileSystem := fsOfFiles [(pW7, ["match me", "%", "skip", "%", "match too", "%"])]

/-- C8 failing input: a directory whose walk yields an entry whose
`entry.metadata()` call fails. -/
def pD8 : RPath := [Component.normal "dir" true]

def pE8 : RPath := [Component.normal "dir" true, Component.normal "entry" true]

def fsC8 : FileSystem where
  meta p := if p = pD8 then .ok .dir else .error "No such file or directory (os error 2)"
  walk p := if p = pD8 then [⟨pE8, .error "Permission denied (os error 13)"⟩] else []
  openFile _ := .error "No such file or directory (os error 2)"

/-- C9 counterexample input: a single empty line before the delimiter. -/
def pC9 : RPath := [Component.normal "f" true]

def fsC9 : FileSystem := fsOfFiles [(pC9, ["", "%"])]

/-- C9 witness input: one ordinary record. -/
def pW9 : RPath := [Component.normal "g" true]

def fsW9 : FileSystem := fsOfFiles [(pW9, ["a", "%"])]

/-- C10 witness inputs: a path with a UTF-8 base name, and a path whose base
name is not valid UTF-8 (so `to_str()` returns `None`) with a record-emitting
content. -/
def pW10 : RPath := [Component.normal "ok" true]

def fsW10 : FileSystem := fsOfFiles [(pW10, ["a", "%"])]

def pB10 : RPath := [Component.normal "bad" false]

def fsB10 : FileSystem where
  meta p := if p = pB10 then .ok .file else .error "No such file or directory (os error 2)"
  walk _ := []
  openFile p := if p = pB10 then .ok [.ok "a", .ok "%"] else .error "No such file or directory (os error 2)"

/-! Helper lemmas about `find_files`. -/

theorem collectEntries_mem : ∀ (es : List WalkEntry) (l : List RPath), collectEntries es = some l →
    ∀ q ∈ l, ∃ e ∈ es, e.path = q ∧ e.meta = Except.ok FKind.file := by
  intro es
  induction es with
  | nil =>
    intro l h q hq
    simp only [collectEntries, Option.some.injEq] at h
    subst h
    simp at hq
  | cons e rest ih =>
    intro l h q hq
    simp only [collectEntries] at h
    cases hm : e.meta with
    | error s => rw [hm] at h; simp at h
    | ok k =>
      rw [hm] at h
      cases hr : collectEntries rest with
      | none => rw [hr] at h; simp at h
      | some l2 =>
        rw [hr] at h
        simp only [Option.some.injEq] at h
        subst h
        by_cases hkf : k = FKind.file
        · rw [if_pos hkf] at hq
          rcases List.mem_cons.mp hq with rfl | hq2
          · exact ⟨e, List.mem_cons_self e rest, rfl, by rw [hm, hkf]⟩
          · rcases ih l2 hr q hq2 with ⟨e2, he2, hp, hmm⟩
            exact ⟨e2, List.mem_cons_of_mem e he2, hp, hmm⟩
        · rw [if_neg hkf] at hq
          rcases ih l2 hr q hq with ⟨e2, he2, hp, hmm⟩
          exact ⟨e2, List.mem_cons_of_mem e he2, hp, hmm⟩

theorem collectEntries_isSome : ∀ es : List WalkEntry, (∀ e ∈ es, ∃ k, e.meta = Except.ok k) →
    ∃ l, collectEntries es = some l := by
  intro es
  induction es with
  | nil => intro _; exact ⟨[], rfl⟩
  | cons e rest ih =>
    intro h
    rcases h e (List.mem_cons_self e rest) with ⟨k, hk⟩
    rcases ih (fun e' he' => h e' (List.mem_cons_of_mem e he')) with ⟨l', hl'⟩
    refine ⟨if k = FKind.file then e.path :: l' else l', ?_⟩
    simp only [collectEntries, hk, hl']

theorem find_filesAcc_mem : ∀ (paths : List RPath) (fs : FileSystem) (l : List RPath),
    find_filesAcc fs paths = .ok l → ∀ q ∈ l,
    fs.meta q = Except.ok FKind.file ∨
      ∃ d ∈ paths, ∃ e ∈ fs.walk d, e.path = q ∧ e.meta = Except.ok FKind.file := by
  intro paths
  induction paths with
  | nil =>
    intro fs l h q hq
    simp only [find_filesAcc, FindResult.ok.injEq] at h
    subst h
    simp at hq
  | cons p ps ih =>
    intro fs l h q hq
    simp only [find_filesAcc] at h
    cases hm : fs.meta p with
    | error s => simp only [hm] at h; exact FindResult.noConfusion h
    | ok k =>
      simp only [hm] at h
      by_cases hkf : k = FKind.file
      · rw [if_pos hkf] at h
        cases hacc : find_filesAcc fs ps with
        | ok l2 =>
          simp only [hacc, FindResult.ok.injEq] at h
          subst h
          rcases List.mem_cons.mp hq with rfl | hq2
          · exact Or.inl (by rw [hm, hkf])
          · rcases ih fs l2 hacc q hq2 with hf | ⟨d, hd, he⟩
            · exact Or.inl hf
            · exact Or.inr ⟨d, List.mem_cons_of_mem p hd, he⟩
        | err s => simp only [hacc] at h; exact FindResult.noConfusion h
        | panicked => simp only [hacc] at h; exact FindResult.noConfusion h
      · rw [if_neg hkf] at h
        by_cases hkd : k = FKind.dir
        · rw [if_pos hkd] at h
          cases hes : collectEntries (fs.walk p) with
          | none => simp only [hes] at h; exact FindResult.noConfusion h
          | some es =>
            simp only [hes] at h
            cases hacc : find_filesAcc fs ps with
            | ok l2 =>
              simp only [hacc, FindResult.ok.injEq] at h
              subst h
              rcases List.mem_append.mp hq with hq2 | hq2
              · rcases collectEntries_mem _ _ hes q hq2 with ⟨e, he, hp, hmm⟩
                exact Or.inr ⟨p, List.mem_cons_self p ps, e, he, hp, hmm⟩
              · rcases ih fs l2 hacc q hq2 with hf | ⟨d, hd, he⟩
                · exact Or.inl hf
                · exact Or.inr ⟨d, List.mem_cons_of_mem p hd, he⟩
            | err s => simp only [hacc] at h; exact FindResult.noConfusion h
            | panicked => simp only [hacc] at h; exact FindResult.noConfusion h
        · rw [if_neg hkd] at h
          rcases ih fs l h q hq with hf | ⟨d, hd, he⟩
          · exact Or.inl hf
          · exact Or.inr ⟨d, List.mem_cons_of_mem p hd, he⟩

/-- In a linear order, a `≤`-sorted list whose adjacent elements are distinct
is `<`-sorted. -/
theorem sorted_lt_of_sorted_le_chain_ne {α : Type} [LinearOrder α] :
    ∀ l : List α, l.Sorted (· ≤ ·) → l.Chain' (· ≠ ·) → l.Sorted (· < ·) := by
  intro l
  induction l with
  | nil => intro _ _; exact List.sorted_nil
  | cons a t ih =>
    intro hs hc
    have ht : t.Sorted (· ≤ ·) := hs.of_cons
    have hts : t.Sorted (· < ·) := ih ht hc.tail
    rw [List.sorted_cons]
    refine ⟨?_, hts⟩
    intro c hcmem
    cases t with
    | nil => simp at hcmem
    | cons b t' =>
      have hab : a ≠ b := (List.chain'_cons.mp hc).1
      have haleb : a ≤ b := List.rel_of_sorted_cons hs b (List.mem_cons_self b t')
      have haltb : a < b := lt_of_le_of_ne haleb hab
      rcases List.mem_cons.mp hcmem with rfl | hcm
      · exact haltb
      · exact lt_of_lt_of_le haltb (List.rel_of_sorted_cons ht c hcm)

theorem find_filesAcc_ext (fs fs' : FileSystem)
    (hm : ∀ p, fs'.meta p = fs.meta p) (hw : ∀ p, fs'.walk p = fs.walk p) :
    ∀ paths, find_filesAcc fs' paths = find_filesAcc fs paths := by
  intro paths
  induction paths with
  | nil => rfl
  | cons p ps ih => simp only [find_filesAcc, hm, hw, ih]

theorem find_filesAcc_err (fs : FileSystem) (p : RPath) (e : String)
    (hbad : fs.meta p = Except.error e) :
    ∀ (pre post : List RPath),
    (∀ q ∈ pre, ∃ k, fs.meta q = Except.ok k) →
    (∀ d ∈ pre, ∀ en ∈ fs.walk d, ∃ k, en.meta = Except.ok k) →
    find_filesAcc fs (pre ++ p :: post) = .err (pathString p ++ ": " ++ e) := by
  intro pre
  induction pre with
  | nil => intro post _ _; simp only [List.nil_append, find_filesAcc, hbad]
  | cons q pre ih =>
    intro post hpre hw
    rcases hpre q (List.mem_cons_self q pre) with ⟨k, hk⟩
    have ihh := ih post (fun r hr => hpre r (List.mem_cons_of_mem q hr))
      (fun d hd => hw d (List.mem_cons_of_mem q hd))
    simp only [List.cons_append, find_filesAcc, hk, List.append_eq]
    by_cases hkf : k = FKind.file
    · rw [if_pos hkf, ihh]
    · rw [if_neg hkf]
      by_cases hkd : k = FKind.dir
      · rw [if_pos hkd]
        rcases collectEntries_isSome (fs.walk q) (hw q (List.mem_cons_self q pre)) with ⟨l, hl⟩
        rw [hl, ihh]
      · rw [if_neg hkd]; exact ihh

/-! Helper lemmas about `processFile` and `read_fortunes`. -/

theorem processFile_isSome (s : String) :
    ∀ (lines buf : List String), (processFile (some s) buf lines).isSome := by
  intro lines
  induction lines with
  | nil => intro buf; rfl
  | cons line rest ih =>
    intro buf
    simp only [processFile]
    by_cases hc : line = "%" ∧ buf ≠ []
    · rw [if_pos hc]
      cases hr : processFile (some s) [] rest with
      | none => have hn := ih []; rw [hr] at hn; simp at hn
      | some pr => simp only [hr]; rfl
    · rw [if_neg hc]; exact ih (buf ++ [line])

theorem processFile_none_iff :
    ∀ (lines buf : List String), processFile none buf lines = none ↔ wouldEmit buf lines = true := by
  intro lines
  induction lines with
  | nil => intro buf; simp [processFile, wouldEmit]
  | cons line rest ih =>
    intro buf
    simp only [processFile, wouldEmit]
    by_cases hc : line = "%" ∧ buf ≠ []
    · rw [if_pos hc, if_pos hc]; simp
    · rw [if_neg hc, if_neg hc]; exact ih (buf ++ [line])

theorem processFile_texts :
    ∀ (lines : List String) (src? : Option String) (buf : List String)
      (fts : List Fortune) (b : List String),
    processFile src? buf lines = some (fts, b) →
    ∀ f ∈ fts, ∃ ls, ls ≠ [] ∧ f.text = String.intercalate "\n" ls := by
  intro lines
  induction lines with
  | nil =>
    intro src? buf fts b h f hf
    simp only [processFile, Option.some.injEq, Prod.mk.injEq] at h
    rcases h with ⟨h1, _⟩
    subst h1
    simp at hf
  | cons line rest ih =>
    intro src? buf fts b h f hf
    simp only [processFile] at h
    by_cases hc : line = "%" ∧ buf ≠ []
    · rw [if_pos hc] at h
      cases src? with
      | none => simp at h
      | some src =>
        cases hr : processFile (some src) [] rest with
        | none => simp only [hr] at h; exact Option.noConfusion h
        | some pr =>
          obtain ⟨fts2, b2⟩ := pr
          simp only [hr, Option.some.injEq, Prod.mk.injEq] at h
          rcases h with ⟨h1, _⟩
          subst h1
          rcases List.mem_cons.mp hf with rfl | hf2
          · exact ⟨buf, hc.2, rfl⟩
          · exact ih (some src) [] fts2 b2 hr f hf2
    · rw [if_neg hc] at h
      exact ih src? (buf ++ [line]) fts b h f hf

theorem processFile_first_text :
    ∀ (lines : List String) (src? : Option String) (buf : List String)
      (f : Fortune) (fts : List Fortune) (b : List String),
    processFile src? buf lines = some (f :: fts, b) →
    ∃ tail, f.text = String.intercalate "\n" (buf ++ tail) := by
  intro lines
  induction lines with
  | nil =>
    intro src? buf f fts b h
    simp only [processFile, Option.some.injEq, Prod.mk.injEq] at h
    exact absurd h.1 (by simp)
  | cons line rest ih =>
    intro src? buf f fts b h
    simp only [processFile] at h
    by_cases hc : line = "%" ∧ buf ≠ []
    · rw [if_pos hc] at h
      cases src? with
      | none => simp at h
      | some src =>
        cases hr : processFile (some src) [] rest with
        | none => simp only [hr] at h; exact Option.noConfusion h
        | some pr =>
          simp only [hr, Option.some.injEq, Prod.mk.injEq] at h
          rcases h with ⟨h1, _⟩
          have hft : f = { source := src, text := String.intercalate "\n" buf } :=
            (List.cons.inj h1.symm).1
          exact ⟨[], by rw [hft, List.append_nil]⟩
    · rw [if_neg hc] at h
      rcases ih src? (buf ++ [line]) f fts b h with ⟨tail, htail⟩
      exact ⟨line :: tail, by rw [htail, List.append_assoc]; rfl⟩

theorem read_fortunes_isSome (fs : FileSystem) :
    ∀ (paths : List RPath), (∀ p ∈ paths, (recordSource? p).isSome) →
    ∀ buf, (read_fortunes fs paths buf).isSome := by
  intro paths
  induction paths with
  | nil => intro _ buf; rfl
  | cons p ps ih =>
    intro h buf
    have hps : ∀ q ∈ ps, (recordSource? q).isSome := fun q hq => h q (List.mem_cons_of_mem p hq)
    simp only [read_fortunes]
    cases ho : fs.openFile p with
    | error e =>
      have hn := ih hps buf
      cases hr : read_fortunes fs ps buf with
      | none => rw [hr] at hn; simp at hn
      | some r => simp only [hr]; rfl
    | ok rawLines =>
      obtain ⟨s, hs⟩ := Option.isSome_iff_exists.mp (h p (List.mem_cons_self p ps))
      rw [hs]
      have hp2 := processFile_isSome s (rawLines.filterMap exceptOk?) buf
      cases hq : processFile (some s) buf (rawLines.filterMap exceptOk?) with
      | none => rw [hq] at hp2; simp at hp2
      | some q =>
        simp only [hq]
        have hn := ih hps q.2
        cases hr : read_fortunes fs ps q.2 with
        | none => rw [hr] at hn; simp at hn
        | some r => simp only [hr]; rfl

theorem read_fortunes_events (fs : FileSystem) :
    ∀ (paths : List RPath) (buf : List String) (evs : List OutEvent) (fts : List Fortune),
    read_fortunes fs paths buf = some (evs, fts) →
    ∀ ev ∈ evs, ∃ s, ev = OutEvent.errLine s := by
  intro paths
  induction paths with
  | nil =>
    intro buf evs fts h ev hev
    simp only [read_fortunes, Option.some.injEq, Prod.mk.injEq] at h
    rcases h with ⟨h1, _⟩
    subst h1
    simp at hev
  | cons p ps ih =>
    intro buf evs fts h ev hev
    simp only [read_fortunes] at h
    cases ho : fs.openFile p with
    | error e =>
      simp only [ho] at h
      cases hr : read_fortunes fs ps buf with
      | none => simp only [hr] at h; exact Option.noConfusion h
      | some r =>
        simp only [hr, Option.some.injEq, Prod.mk.injEq] at h
        rcases h with ⟨h1, _⟩
        subst h1
        rcases List.mem_cons.mp hev with rfl | hev2
        · exact ⟨pathString p ++ ": " ++ e, rfl⟩
        · exact ih buf r.1 r.2 (by rw [hr]) ev hev2
    | ok rawLines =>
      simp only [ho] at h
      cases hq : processFile (recordSource? p) buf (rawLines.filterMap exceptOk?) with
      | none => simp only [hq] at h; exact Option.noConfusion h
      | some q =>
        simp only [hq] at h
        cases hr : read_fortunes fs ps q.2 with
        | none => simp only [hr] at h; exact Option.noConfusion h
        | some r =>
          simp only [hr, Option.some.injEq, Prod.mk.injEq] at h
          rcases h with ⟨h1, _⟩
          subst h1
          exact ih q.2 r.1 r.2 (by rw [hr]) ev hev

theorem read_fortunes_texts (fs : FileSystem) :
    ∀ (paths : List RPath) (buf : List String) (evs : List OutEvent) (fts : List Fortune),
    read_fortunes fs paths buf = some (evs, fts) →
    ∀ f ∈ fts, ∃ ls, ls ≠ [] ∧ f.text = String.intercalate "\n" ls := by
  intro paths
  induction paths with
  | nil =>
    intro buf evs fts h f hf
    simp only [read_fortunes, Option.some.injEq, Prod.mk.injEq] at h
    rcases h with ⟨_, h2⟩
    subst h2
    simp at hf
  | cons p ps ih =>
    intro buf evs fts h f hf
    simp only [read_fortunes] at h
    cases ho : fs.openFile p with
    | error e =>
      simp only [ho] at h
      cases hr : read_fortunes fs ps buf with
      | none => simp only [hr] at h; exact Option.noConfusion h
      | some r =>
        simp only [hr, Option.some.injEq, Prod.mk.injEq] at h
        rcases h with ⟨_, h2⟩
        subst h2
        exact ih buf r.1 r.2 (by rw [hr]) f hf
    | ok rawLines =>
      simp only [ho] at h
      cases hq : processFile (recordSource? p) buf (rawLines.filterMap exceptOk?) with
      | none => simp only [hq] at h; exact Option.noConfusion h
      | some q =>
        simp only [hq] at h
        cases hr : read_fortunes fs ps q.2 with
        | none => simp only [hr] at h; exact Option.noConfusion h
        | some r =>
          simp only [hr, Option.some.injEq, Prod.mk.injEq] at h
          rcases h with ⟨_, h2⟩
          subst h2
          rcases List.mem_append.mp hf with hf2 | hf2
          · exact processFile_texts (rawLines.filterMap exceptOk?) (recordSource? p) buf q.1 q.2
              (by rw [hq]) f hf2
          · exact ih q.2 r.1 r.2 (by rw [hr]) f hf2

theorem stdoutOf_append (a b : List OutEvent) :
    stdoutOf (a ++ b) = stdoutOf a ++ stdoutOf b := by
  simp [stdoutOf, List.filterMap_append]

theorem stdoutOf_errLines :
    ∀ evs : List OutEvent, (∀ ev ∈ evs, ∃ s, ev = OutEvent.errLine s) → stdoutOf evs = [] := by
  intro evs
  induction evs with
  | nil => intro _; rfl
  | cons ev rest ih =>
    intro h
    rcases h ev (List.mem_cons_self ev rest) with ⟨s, rfl⟩
    have hrest := ih (fun e he => h e (List.mem_cons_of_mem _ he))
    simp only [stdoutOf, List.filterMap_cons] at hrest ⊢
    exact hrest

/-- The code-side pattern loop produces exactly the spec-side rendering:
the matching records in order, with a header exactly at adjacency changes of
the source in the filtered stream. -/
theorem patternLoop_eq (m : String → Bool) :
    ∀ (l : List Fortune) (prev : Option String),
    patternLoop m prev l = adjacencyRender prev (List.filter (fun f => m f.text) l) := by
  intro l
  induction l with
  | nil => intro prev; rfl
  | cons f rest ih =>
    intro prev
    simp only [patternLoop, List.filter_cons]
    cases hmf : m f.text with
    | false =>
      simp only [hmf, Bool.false_eq_true, if_false]
      exact ih prev
    | true =>
      simp only [hmf, if_true]
      by_cases hp : prev ≠ some f.source
      · rw [if_pos hp]
        simp only [adjacencyRender, if_pos hp, List.singleton_append]
        rw [ih (some f.source)]
      · rw [if_neg hp]
        push_neg at hp
        subst hp
        rw [ih (some f.source)]
        simp [adjacencyRender]

/-! Claim theorems. -/

/-- Claim C1 (confirmed): with a seed present, `pick_fortune` is a
deterministic function of the 64-bit seed and the corpus alone: two calls
with the identical seed and identical corpus (same length and order) return
the identical record, for any ambient thread-rng states `t` and `t'` — the
seeded branch consults no state other than `(seed, corpus)`. -/
theorem pick_fortune_seeded_deterministic
    (stdRngIndex : Nat → Nat → Nat) (t t' : Nat → Nat)
    (fortunes fortunes' : List Fortune) (seed : Nat)
    (h64 : seed < 2 ^ 64) (hsame : fortunes = fortunes') :
    pick_fortune stdRngIndex t fortunes (some seed) =
      pick_fortune stdRngIndex t' fortunes' (some seed) := by
  subst hsame
  rfl

/-- Witness for C1 at a concrete seed, corpus and two thread-rng states. -/
theorem pick_fortune_seeded_deterministic_inst :
    pick_fortune (fun s n => s % n) (fun _ => 0) [⟨"f", "a"⟩, ⟨"f", "b"⟩] (some 7) =
      pick_fortune (fun s n => s % n) (fun _ => 1) [⟨"f", "a"⟩, ⟨"f", "b"⟩] (some 7) :=
  pick_fortune_seeded_deterministic (fun s n => s % n) (fun _ => 0) (fun _ => 1)
    [⟨"f", "a"⟩, ⟨"f", "b"⟩] [⟨"f", "a"⟩, ⟨"f", "b"⟩] 7 (by decide) rfl

/-- Claim C2 counterexample: on the file content `a, %, %, b, %` the second
delimiter line is observed while the buffer is empty; no record is emitted at
that point, but the parsed corpus is `[(f, "a"), (f, "%\nb")]` — the
delimiter line `%` is one of the lines of a subsequently emitted record's
text, refuting "leaves no trace in any subsequently emitted Record's text". -/
theorem read_fortunes_delimiter_trace :
    read_fortunes fsC2 [pC2] [] = some ([], [⟨"f", "a"⟩, ⟨"f", "%\nb"⟩]) ∧
    (Fortune.mk "f" "%\nb").text = String.intercalate "\n" ["%", "b"] :=
  ⟨by decide, by decide⟩

/-- Claim C2 (corrected): a delimiter line observed with an empty buffer
emits no record, but is pushed onto the buffer like an ordinary line; the
next record emitted from that buffer (if any) therefore has the `%` line as
its first line. -/
theorem processFile_delimiter_empty_buffer (src? : Option String) (rest : List String) :
    processFile src? [] ("%" :: rest) = processFile src? ["%"] rest ∧
    ∀ (f : Fortune) (fts : List Fortune) (b : List String),
      processFile src? ["%"] rest = some (f :: fts, b) →
      ∃ tail, f.text = String.intercalate "\n" ("%" :: tail) := by
  constructor
  · simp [processFile]
  · intro f fts b h
    exact processFile_first_text rest src? ["%"] f fts b h

/-- Witness for the corrected C2 at a concrete file tail. -/
theorem processFile_delimiter_empty_buffer_inst :
    processFile (some "f") [] ("%" :: ["b", "%"]) = processFile (some "f") ["%"] ["b", "%"] ∧
    ∃ tail, (Fortune.mk "f" "%\nb").text = String.intercalate "\n" ("%" :: tail) :=
  ⟨(processFile_delimiter_empty_buffer (some "f") ["b", "%"]).1,
   (processFile_delimiter_empty_buffer (some "f") ["b", "%"]).2 ⟨"f", "%\nb"⟩ [] [] (by decide)⟩

/-- Claim C3 counterexample: file `A` holds the single line `x` with no
delimiter, file `B` holds `y` then a delimiter.  The parsed corpus is the
single record `(B, "x\ny")`: file `A`'s unterminated content is NOT discarded
at `A`'s end of input — it leaks into the first record of the next file. -/
theorem read_fortunes_buffer_leak :
    read_fortunes fsC3 [pA3, pB3] [] = some ([], [⟨"B", "x\ny"⟩]) ∧
    (Fortune.mk "B" "x\ny").text = String.intercalate "\n" ["x", "y"] :=
  ⟨by decide, by decide⟩

/-- Claim C3 (corrected): the accumulation buffer is shared across files
(declared outside the file loop), so a file's content after its last
delimiter stays in the buffer and is carried into the next file's parse,
where it is prepended to the next emitted record; only whatever remains after
the final file is discarded. -/
theorem read_fortunes_two_files
    (fs : FileSystem) (p1 p2 : RPath) (L1 L2 : List (Except String String))
    (s1 s2 : String) (F1 F2 : List Fortune) (b1 b2 : List String)
    (h1 : fs.openFile p1 = .ok L1) (h2 : fs.openFile p2 = .ok L2)
    (hs1 : recordSource? p1 = some s1) (hs2 : recordSource? p2 = some s2)
    (hp1 : processFile (some s1) [] (L1.filterMap exceptOk?) = some (F1, b1))
    (hp2 : processFile (some s2) b1 (L2.filterMap exceptOk?) = some (F2, b2)) :
    read_fortunes fs [p1, p2] [] = some ([], F1 ++ F2) := by
  simp only [read_fortunes, h1, h2, hs1, hs2, hp1, hp2]
  simp

/-- Witness for the corrected C3: the concrete leak of `x` into file `B`'s
record. -/
theorem read_fortunes_two_files_inst :
    read_fortunes fsC3 [pA3, pB3] [] = some ([], [] ++ [Fortune.mk "B" "x\ny"]) :=
  read_fortunes_two_files fsC3 pA3 pB3 [.ok "x"] [.ok "y", .ok "%"] "A" "B"
    [] [Fortune.mk "B" "x\ny"] ["x"] []
    (by decide) (by decide) (by decide) (by decide) (by decide) (by decide)

/-- Claim C4 counterexample: on the two regular files `a-b` and `a/b`,
`find_files` returns `[a/b, a-b]` (PathBuf component order), although the
path string of `a-b` precedes the path string of `a/b` — the output is not
sorted lexicographically by path string. -/
theorem find_files_not_string_sorted :
    find_files fsC4 [pDash, pSlash] = .ok [pSlash, pDash] ∧ pathStringLt pDash pSlash :=
  ⟨by decide, by decide⟩

/-- Claim C4 (corrected): a successful `find_files` result has no duplicate
entries, is sorted by Rust's `PathBuf` order (lexicographic on component
sequences — not always the same as lexicographic on the rendered path
string), contains only paths the filesystem reports as regular files
(provided walk entries report metadata consistent with the filesystem), and
depends only on the filesystem state, so re-running on the same state is
idempotent. -/
theorem find_files_canonical
    (fs fs' : FileSystem) (paths files : List RPath)
    (hok : find_files fs paths = .ok files) :
    files.Sorted (· ≤ ·) ∧ files.Nodup ∧
    ((∀ d, ∀ e ∈ fs.walk d, fs.meta e.path = e.meta) →
      ∀ q ∈ files, fs.meta q = Except.ok FKind.file) ∧
    ((∀ p, fs'.meta p = fs.meta p) → (∀ p, fs'.walk p = fs.walk p) →
      find_files fs' paths = find_files fs paths) := by
  unfold find_files at hok
  cases hacc : find_filesAcc fs paths with
  | err s => simp only [hacc] at hok; exact FindResult.noConfusion hok
  | panicked => simp only [hacc] at hok; exact FindResult.noConfusion hok
  | ok l =>
    simp only [hacc, FindResult.ok.injEq] at hok
    subst hok
    have hsort : (l.insertionSort (· ≤ ·)).Sorted (· ≤ ·) := List.sorted_insertionSort _ l
    have hsub := List.destutter_sublist (· ≠ ·) (l.insertionSort (· ≤ ·))
    have hsorted : (List.destutter (· ≠ ·) (l.insertionSort (· ≤ ·))).Sorted (· ≤ ·) :=
      List.Pairwise.sublist hsub hsort
    have hchain := List.destutter_is_chain' (· ≠ ·) (l.insertionSort (· ≤ ·))
    have hlt := sorted_lt_of_sorted_le_chain_ne _ hsorted hchain
    refine ⟨hsorted, hlt.nodup, ?_, ?_⟩
    · intro hcons q hq
      have hq2 : q ∈ l :=
        (List.perm_insertionSort (· ≤ ·) l).subset (hsub.subset hq)
      rcases find_filesAcc_mem paths fs l hacc q hq2 with hf | ⟨d, _, e, he, hpth, hmeta⟩
      · exact hf
      · have hco := hcons d e he
        rw [← hpth, hco, hmeta]
    · intro hm hw
      unfold find_files
      rw [find_filesAcc_ext fs fs' hm hw paths]

/-- Witness for the corrected C4: a directory (with its own walk entry and a
file entry) plus a duplicated top-level file. -/
theorem find_files_canonical_inst :
    ([pW4b, pW4a] : List RPath).Sorted (· ≤ ·) ∧ ([pW4b, pW4a] : List RPath).Nodup ∧
    (∀ q ∈ ([pW4b, pW4a] : List RPath), fsW4.meta q = Except.ok FKind.file) ∧
    find_files fsW4 [pW4d, pW4b, pW4b] = find_files fsW4 [pW4d, pW4b, pW4b] := by
  have h := find_files_canonical fsW4 fsW4 [pW4d, pW4b, pW4b] [pW4b, pW4a] (by decide)
  refine ⟨h.1, h.2.1, h.2.2.1 ?_, h.2.2.2 (fun _ => rfl) (fun _ => rfl)⟩
  intro d e he
  by_cases hd : d = pW4d
  · subst hd
    simp [fsW4] at he
    rcases he with rfl | rfl
    · decide
    · decide
  · simp [fsW4, hd] at he

/-- Claim C5 counterexample: with the path list `[locked, missing]`, where
`locked` is a directory whose single walk entry has a failed metadata call
and `missing` does not exist, `find_files` panics in the walk loop before it
ever inspects `missing` — it does not fail with an error naming `missing`. -/
theorem find_files_panic_preempts :
    find_files fsC5 [pD5, pB5] = .panicked ∧
    fsC5.meta pB5 = Except.error "No such file or directory (os error 2)" :=
  ⟨by decide, by decide⟩

/-- Claim C5 (corrected): provided the paths before the first failing one are
inspectable and their traversals meet no entry with unavailable metadata (no
unwrap panic), a top-level path whose metadata fails aborts the whole
collection with `Err("{path}: {os error}")` naming that path — the first
failing one in list order — regardless of its position and of the paths after
it, which are never inspected; no partial result is returned. -/
theorem find_files_fail_fast
    (fs : FileSystem) (pre post : List RPath) (p : RPath) (e : String)
    (hpre : ∀ q ∈ pre, ∃ k, fs.meta q = Except.ok k)
    (hw : ∀ d ∈ pre, ∀ en ∈ fs.walk d, ∃ k, en.meta = Except.ok k)
    (hbad : fs.meta p = Except.error e) :
    find_files fs (pre ++ p :: post) = .err (pathString p ++ ": " ++ e) := by
  unfold find_files
  rw [find_filesAcc_err fs p e hbad pre post hpre hw]

/-- Witness for the corrected C5: a valid file before and after the missing
path. -/
theorem find_files_fail_fast_inst :
    find_files fsW5 [pW5a, pW5b, pW5c] =
      .err (pathString pW5b ++ ": " ++ "No such file or directory (os error 2)") := by
  refine find_files_fail_fast fsW5 [pW5a] [pW5c] pW5b "No such file or directory (os error 2)"
    ?_ ?_ ?_
  · intro q hq
    rcases List.mem_singleton.mp hq with rfl
    exact ⟨FKind.file, by decide⟩
  · intro d hd en hen
    rcases List.mem_singleton.mp hd with rfl
    simp [fsW5, fsOfFiles] at hen
  · decide

/-- Claim C6 (confirmed): the selector on the empty corpus returns nothing
for every seed (present or absent), and in that case random mode appends
exactly `No fortunes found` to the output, the only line on the primary
(stdout) stream — everything before it is a stderr diagnostic — and the run
completes successfully. -/
theorem run_empty_corpus
    (fs : FileSystem) (stdI : Nat → Nat → Nat) (thI : Nat → Nat) (cfg : Config)
    (files : List RPath) (evs : List OutEvent)
    (hp : cfg.pattern = none)
    (hf : find_files fs cfg.sources = .ok files)
    (hr : read_fortunes fs files [] = some (evs, [])) :
    (∀ (sI : Nat → Nat → Nat) (tI : Nat → Nat) (seed : Option Nat),
      pick_fortune sI tI [] seed = none) ∧
    run fs stdI thI cfg = .ok (evs ++ [.out "No fortunes found"]) ∧
    stdoutOf (evs ++ [.out "No fortunes found"]) = ["No fortunes found"] := by
  refine ⟨?_, ?_, ?_⟩
  · intro sI tI seed
    cases seed <;> rfl
  · unfold run
    simp only [hf, hr, hp]
    cases hseed : cfg.seed <;> rfl
  · rw [stdoutOf_append, stdoutOf_errLines evs (read_fortunes_events fs files [] evs [] hr)]
    rfl

/-- Witness for C6: one discoverable file that fails to open, seed present. -/
theorem run_empty_corpus_inst :
    pick_fortune (fun _ _ => 0) (fun _ => 0) [] (some 3) = none ∧
    run fsW6 (fun _ _ => 0) (fun _ => 0) ⟨[pW6], none, some 3⟩ =
      .ok ([.errLine (pathString pW6 ++ ": " ++ "Permission denied (os error 13)")]
        ++ [.out "No fortunes found"]) ∧
    stdoutOf ([.errLine (pathString pW6 ++ ": " ++ "Permission denied (os error 13)")]
        ++ [.out "No fortunes found"]) = ["No fortunes found"] := by
  have h := run_empty_corpus fsW6 (fun _ _ => 0) (fun _ => 0) ⟨[pW6], none, some 3⟩ [pW6]
    [.errLine (pathString pW6 ++ ": " ++ "Permission denied (os error 13)")]
    rfl (by decide) (by decide)
  exact ⟨h.1 (fun _ _ => 0) (fun _ => 0) (some 3), h.2.1, h.2.2⟩

/-- Claim C7 (confirmed): in pattern mode, `run` emits — after the parse
diagnostics — exactly the spec-side rendering `adjacencyRender`: every record
whose text matches, in corpus order, each followed by `%`, with a `(source)`
header exactly when the source differs from the immediately preceding yielded
record's source (header for the first yielded record), headers being
re-emitted when a source resumes — not once per globally grouped source. -/
theorem run_pattern_mode
    (fs : FileSystem) (stdI : Nat → Nat → Nat) (thI : Nat → Nat) (cfg : Config)
    (m : String → Bool) (files : List RPath) (evs : List OutEvent) (fts : List Fortune)
    (hm : cfg.pattern = some m)
    (hf : find_files fs cfg.sources = .ok files)
    (hr : read_fortunes fs files [] = some (evs, fts)) :
    run fs stdI thI cfg =
      .ok (evs ++ adjacencyRender none (List.filter (fun f => m f.text) fts)) := by
  unfold run
  simp only [hf, hr, hm]
  rw [patternOut, patternLoop_eq]

/-- Witness for C7: three one-source records, the middle one not matching;
the header appears once, before the first match. -/
theorem run_pattern_mode_inst :
    run fsW7 (fun _ _ => 0) (fun _ => 0) ⟨[pW7], some (fun s => s.data.contains 'm'), none⟩ =
      .ok ([] ++ adjacencyRender none (List.filter (fun f => (fun s : String => s.data.contains 'm') f.text)
        [⟨"f", "match me"⟩, ⟨"f", "skip"⟩, ⟨"f", "match too"⟩])) :=
  run_pattern_mode fsW7 (fun _ _ => 0) (fun _ => 0)
    ⟨[pW7], some (fun s => s.data.contains 'm'), none⟩
    (fun s => s.data.contains 'm') [pW7] []
    [⟨"f", "match me"⟩, ⟨"f", "skip"⟩, ⟨"f", "match too"⟩] rfl (by decide) (by decide)

/-- Claim C8 (code bug): the walk loop's `entry.metadata().unwrap()` panics
on an entry whose metadata is unavailable instead of skipping it: on a
directory whose walk yields exactly one entry carrying a failed metadata
result, `find_files` reaches the panic branch. -/
theorem find_files_unwrap_panics :
    fsC8.walk pD8 = [⟨pE8, Except.error "Permission denied (os error 13)"⟩] ∧
    find_files fsC8 [pD8] = .panicked :=
  ⟨by decide, by decide⟩

/-- Claim C9 counterexample: a file whose record body is a single empty line
yields a record whose `text` is the empty string. -/
theorem read_fortunes_empty_text :
    read_fortunes fsC9 [pC9] [] = some ([], [⟨"f", ""⟩]) ∧ (Fortune.mk "f" "").text = "" :=
  ⟨by decide, rfl⟩

/-- Claim C9 (corrected): every emitted record's text is the `\n`-join of the
lines of some non-empty buffer — records are created only at a delimiter with
a non-empty buffer — but because buffered lines can be empty strings (or
buffered delimiter lines), the text itself can be empty and can contain
delimiter lines. -/
theorem read_fortunes_text_shape
    (fs : FileSystem) (paths : List RPath) (evs : List OutEvent) (fts : List Fortune)
    (h : read_fortunes fs paths [] = some (evs, fts)) :
    ∀ f ∈ fts, ∃ ls, ls ≠ [] ∧ f.text = String.intercalate "\n" ls :=
  read_fortunes_texts fs paths [] evs fts h

/-- Witness for the corrected C9 at a one-record corpus. -/
theorem read_fortunes_text_shape_inst :
    ∃ ls, ls ≠ [] ∧ (Fortune.mk "g" "a").text = String.intercalate "\n" ls :=
  read_fortunes_text_shape fsW9 [pW9] [] [⟨"g", "a"⟩] (by decide) ⟨"g", "a"⟩ (by decide)

/-- Claim C10 (confirmed): record parsing unwraps `file_name()` and
`to_str()` when a record is emitted.  (i) If every path has a `Normal` final
component whose name is valid UTF-8 (`recordSource?` succeeds), parsing never
panics — both unwrap branches are unreachable — for any filesystem and any
inherited buffer.  (ii) For a path on which an unwrap must fail
(`recordSource? = none`), parsing that file panics precisely when its content
would emit at least one record. -/
theorem read_fortunes_source_unwrap :
    (∀ (fs : FileSystem) (paths : List RPath), (∀ p ∈ paths, (recordSource? p).isSome) →
      ∀ buf, (read_fortunes fs paths buf).isSome) ∧
    (∀ (fs : FileSystem) (p : RPath) (lines : List (Except String String)) (buf : List String),
      fs.openFile p = .ok lines → recordSource? p = none →
      (read_fortunes fs [p] buf = none ↔ wouldEmit buf (lines.filterMap exceptOk?) = true)) := by
  constructor
  · exact fun fs => read_fortunes_isSome fs
  · intro fs p lines buf ho hs
    simp only [read_fortunes, ho, hs]
    constructor
    · intro h
      cases hq : processFile none buf (lines.filterMap exceptOk?) with
      | none => exact (processFile_none_iff _ _).mp hq
      | some q => simp only [hq] at h; exact Option.noConfusion h
    · intro h
      rw [(processFile_none_iff _ _).mpr h]

/-- Witness for C10: a UTF-8 path parses without panic; a non-UTF-8 path with
record-emitting content satisfies the panic characterization. -/
theorem read_fortunes_source_unwrap_inst :
    (read_fortunes fsW10 [pW10] []).isSome ∧
    (read_fortunes fsB10 [pB10] [] = none ↔
      wouldEmit [] ([Except.ok "a", Except.ok "%"].filterMap exceptOk?) = true) :=
  ⟨read_fortunes_source_unwrap.1 fsW10 [pW10] (by decide) [],
   read_fortunes_source_unwrap.2 fsB10 pB10 [Except.ok "a", Except.ok "%"] [] (by decide)
     (by decide)⟩

end Fortuner
